import Mathlib

/-!
Shallow embedding of the Saturn dataset pipeline:
- `serialize_item` (the Normalizer) from `src/backend/download_final_datasets.py`
- `inspect_dataset` (the Inspector) from `src/backend/inspect_datasets.py`

Python values are modelled by the inductive `Value`: JSON-native scalars
(string, number, boolean, null), `datetime` objects (carrying their
ISO-8601 `isoformat` string), Python dicts as ordered association lists
(CPython dicts preserve insertion order), and Python lists.
-/

inductive Value where
  | str : String → Value
  | num : Int → Value
  | bool : Bool → Value
  | null : Value
  | timestamp : String → Value
  | obj : List (String × Value) → Value
  | arr : List Value → Value
deriving Repr

mutual
/-- Structural equality test on `Value` (Python `==` on these values). -/
def beqValue : Value → Value → Bool
  | .str a, .str b => a == b
  | .num a, .num b => a == b
  | .bool a, .bool b => a == b
  | .null, .null => true
  | .timestamp a, .timestamp b => a == b
  | .obj a, .obj b => beqObjList a b
  | .arr a, .arr b => beqValueList a b
  | _, _ => false

def beqObjList : List (String × Value) → List (String × Value) → Bool
  | [], [] => true
  | (k, v) :: r, (k2, v2) :: r2 => k == k2 && beqValue v v2 && beqObjList r r2
  | _, _ => false

def beqValueList : List Value → List Value → Bool
  | [], [] => true
  | a :: r, b :: r2 => beqValue a b && beqValueList r r2
  | _, _ => false
end

instance : BEq Value := ⟨beqValue⟩

mutual
theorem beqValue_iff : (a b : Value) → (beqValue a b = true ↔ a = b)
  | .str x, b => by cases b <;> simp [beqValue]
  | .num x, b => by cases b <;> simp [beqValue]
  | .bool x, b => by cases b <;> simp [beqValue]
  | .null, b => by cases b <;> simp [beqValue]
  | .timestamp x, b => by cases b <;> simp [beqValue]
  | .obj kvs, b => by
      cases b with
      | obj kvs2 => simp [beqValue, beqObjList_iff kvs kvs2]
      | str y => simp [beqValue]
      | num y => simp [beqValue]
      | bool y => simp [beqValue]
      | null => simp [beqValue]
      | timestamp y => simp [beqValue]
      | arr y => simp [beqValue]
  | .arr xs, b => by
      cases b with
      | arr ys => simp [beqValue, beqValueList_iff xs ys]
      | str y => simp [beqValue]
      | num y => simp [beqValue]
      | bool y => simp [beqValue]
      | null => simp [beqValue]
      | timestamp y => simp [beqValue]
      | obj y => simp [beqValue]

theorem beqObjList_iff : (a b : List (String × Value)) → (beqObjList a b = true ↔ a = b)
  | [], [] => by simp [beqObjList]
  | [], _ :: _ => by simp [beqObjList]
  | _ :: _, [] => by simp [beqObjList]
  | (k, v) :: r, (k2, v2) :: r2 => by
      simp [beqObjList, beqValue_iff v v2, beqObjList_iff r r2, and_assoc]

theorem beqValueList_iff : (a b : List Value) → (beqValueList a b = true ↔ a = b)
  | [], [] => by simp [beqValueList]
  | [], _ :: _ => by simp [beqValueList]
  | _ :: _, [] => by simp [beqValueList]
  | a :: r, b :: r2 => by
      simp [beqValueList, beqValue_iff a b, beqValueList_iff r r2]
end

instance : LawfulBEq Value where
  eq_of_beq h := (beqValue_iff _ _).mp h
  rfl := (beqValue_iff _ _).mpr rfl

instance : DecidableEq Value := fun a b => decidable_of_iff _ (beqValue_iff a b)

mutual
/-- `serialize_item` from `download_final_datasets.py` lines 14-23:
`datetime` becomes its `isoformat()` string, dicts and lists recurse,
everything else passes through unchanged. `serializeObj` and
`serializeList` are the dict/list comprehensions of lines 19 and 21. -/
def serialize_item : Value → Value
  | .timestamp s => .str s
  | .obj kvs => .obj (serializeObj kvs)
  | .arr xs => .arr (serializeList xs)
  | .str s => .str s
  | .num n => .num n
  | .bool b => .bool b
  | .null => .null

def serializeObj : List (String × Value) → List (String × Value)
  | [] => []
  | (k, v) :: kvs => (k, serialize_item v) :: serializeObj kvs

def serializeList : List Value → List Value
  | [] => []
  | x :: xs => serialize_item x :: serializeList xs
end

mutual
/-- A value is JSON-native when no `datetime` (timestamp) occurs anywhere in it. -/
def isNative : Value → Bool
  | .timestamp _ => false
  | .obj kvs => isNativeObj kvs
  | .arr xs => isNativeList xs
  | _ => true

def isNativeObj : List (String × Value) → Bool
  | [] => true
  | (_, v) :: kvs => isNative v && isNativeObj kvs

def isNativeList : List Value → Bool
  | [] => true
  | x :: xs => isNative x && isNativeList xs
end

/-! ## Python value helpers used by the Inspector -/

/-- `d[k]` / `k in d` lookup on a Python dict, modelled as first match in the
insertion-ordered association list. Returns the stored value even when it is
`None` or an empty string (this is `dict.__contains__` / `dict.get` semantics). -/
def lookupKey (kvs : List (String × Value)) (k : String) : Option Value :=
  (kvs.find? (fun kv => kv.1 == k)).map (fun kv => kv.2)

/-- `k in d` on a Python dict. -/
def hasKey (kvs : List (String × Value)) (k : String) : Bool :=
  kvs.any (fun kv => kv.1 == k)

/-- Python truthiness of a value (`if item.get('language')`): `None`, `False`,
`0`, `""`, `[]`, `{}` are falsy, everything else truthy. -/
def truthy : Value → Bool
  | .null => false
  | .bool b => b
  | .num n => n != 0
  | .str s => !s.isEmpty
  | .arr xs => !xs.isEmpty
  | .obj kvs => !kvs.isEmpty
  | .timestamp _ => true

/-- Python `len(v)`: defined for strings, lists and dicts; a `TypeError`
(modelled as `none`) for scalars. -/
def pyLen : Value → Option Nat
  | .str s => some s.length
  | .arr xs => some xs.length
  | .obj kvs => some kvs.length
  | _ => none

/-- Python slicing `v[:n]`: defined for strings and lists; a `TypeError`
for anything else (in particular `None[:n]` raises). -/
def pySlice (v : Value) (n : Nat) : Except String Value :=
  match v with
  | .str s => .ok (.str (s.take n))
  | .arr xs => .ok (.arr (xs.take n))
  | _ => .error "TypeError: value is not subscriptable"

mutual
/-- Python `str(v)` as used by f-string interpolation: strings render as
themselves, `None` as `None`, booleans capitalized, containers via `repr`. -/
def pyStr : Value → String
  | .str s => s
  | .null => "None"
  | .bool true => "True"
  | .bool false => "False"
  | .num n => toString n
  | .timestamp s => s
  | .obj kvs => "\x7b" ++ pyReprObj kvs ++ "\x7d"
  | .arr xs => "[" ++ pyReprList xs ++ "]"

/-- Python `repr(v)` (strings pick up quotes). -/
def pyRepr : Value → String
  | .str s => "\x27" ++ s ++ "\x27"
  | .null => "None"
  | .bool true => "True"
  | .bool false => "False"
  | .num n => toString n
  | .timestamp s => s
  | .obj kvs => "\x7b" ++ pyReprObj kvs ++ "\x7d"
  | .arr xs => "[" ++ pyReprList xs ++ "]"

def pyReprObj : List (String × Value) → String
  | [] => ""
  | [(k, v)] => "\x27" ++ k ++ "\x27: " ++ pyRepr v
  | (k, v) :: kvs => "\x27" ++ k ++ "\x27: " ++ pyRepr v ++ ", " ++ pyReprObj kvs

def pyReprList : List Value → String
  | [] => ""
  | [x] => pyRepr x
  | x :: xs => pyRepr x ++ ", " ++ pyReprList xs
end

/-- Python `repr` of a list of strings, e.g. `list(first_item.keys())`
rendered by an f-string: `['a', 'b']`. -/
def pyReprKeys (ks : List String) : String :=
  "[" ++ String.intercalate ", " (ks.map (fun k => "\x27" ++ k ++ "\x27")) ++ "]"

/-- Insert thousands separators from the right into a digit string
(reversal-based helper for Python's `{n:,}` format). -/
def commaGroupRev : List Char → List Char
  | c1 :: c2 :: c3 :: c4 :: rest => c1 :: c2 :: c3 :: ',' :: commaGroupRev (c4 :: rest)
  | cs => cs

/-- Python `f"{n:,}"` for a non-negative integer: decimal digits with a comma
every three digits from the right. -/
def formatComma (n : Nat) : String :=
  String.mk ((commaGroupRev (toString n).toList.reverse).reverse)

/-- Round the rational `num / den` to the nearest tenth, ties to even
(the rounding of Python's `{x:.1f}` format on exact values), returning the
number of tenths. Total: `den = 0` yields `0` by `Nat` division conventions. -/
def roundTenths (num den : Nat) : Nat :=
  let q := num * 10 / den
  let r := num * 10 % den
  if 2 * r < den then q
  else if den < 2 * r then q + 1
  else if q % 2 = 0 then q else q + 1

/-- Python `f"{num/den:.1f}"` for non-negative `num`, positive `den`:
one digit after the decimal point. -/
def format1f (num den : Nat) : String :=
  let n := roundTenths num den
  toString (n / 10) ++ "." ++ toString (n % 10)

/-- `n` spaces. -/
def spaces (n : Nat) : String := String.mk (List.replicate n ' ')

/-- Hexadecimal digit. -/
def hexDigit (n : Nat) : Char :=
  if n < 10 then Char.ofNat (48 + n) else Char.ofNat (87 + n % 16)

/-- Four-digit lowercase hex of `n < 0x10000`. -/
def hex4 (n : Nat) : String :=
  String.mk [hexDigit (n / 4096 % 16), hexDigit (n / 256 % 16),
             hexDigit (n / 16 % 16), hexDigit (n % 16)]

/-- JSON string escaping as performed by `json.dumps` with the default
`ensure_ascii=True`: quote, backslash, control characters, and all
non-ASCII code points escaped (surrogate pairs above the BMP). -/
def jsonEscapeChar (c : Char) : String :=
  if c = '"' then "\\\""
  else if c = '\\' then "\\\\"
  else if c = Char.ofNat 10 then "\\n"
  else if c = Char.ofNat 9 then "\\t"
  else if c = Char.ofNat 13 then "\\r"
  else if c.toNat < 32 ∨ 126 < c.toNat then
    if c.toNat < 65536 then "\\u" ++ hex4 c.toNat
    else
      let v := c.toNat - 65536
      "\\u" ++ hex4 (55296 + v / 1024) ++ "\\u" ++ hex4 (56320 + v % 1024)
  else String.mk [c]

/-- JSON-quoted string. -/
def jsonQuote (s : String) : String :=
  "\"" ++ String.join (s.toList.map jsonEscapeChar) ++ "\""

mutual
/-- `json.dumps(v, indent=2)` at indentation level `lvl`: dicts and lists
open on their own line, children indented two more spaces, separator `",\n"`,
key separator `": "`; a `datetime` reaching the encoder raises `TypeError`. -/
def dumps (lvl : Nat) : Value → Except String String
  | .null => .ok "null"
  | .bool true => .ok "true"
  | .bool false => .ok "false"
  | .num n => .ok (toString n)
  | .str s => .ok (jsonQuote s)
  | .timestamp _ => .error "TypeError: Object of type datetime is not JSON serializable"
  | .arr [] => .ok "[]"
  | .arr (x :: xs) => do
      let parts ← dumpsList (lvl + 1) (x :: xs)
      .ok ("[\n" ++ String.intercalate ",\n" (parts.map (fun p => spaces (2 * (lvl + 1)) ++ p))
           ++ "\n" ++ spaces (2 * lvl) ++ "]")
  | .obj [] => .ok "\x7b\x7d"
  | .obj (kv :: kvs) => do
      let parts ← dumpsObj (lvl + 1) (kv :: kvs)
      .ok ("\x7b\n" ++ String.intercalate ",\n" (parts.map (fun p => spaces (2 * (lvl + 1)) ++ p))
           ++ "\n" ++ spaces (2 * lvl) ++ "\x7d")

def dumpsList (lvl : Nat) : List Value → Except String (List String)
  | [] => .ok []
  | x :: xs => do
      let s ← dumps lvl x
      let rest ← dumpsList lvl xs
      .ok (s :: rest)

def dumpsObj (lvl : Nat) : List (String × Value) → Except String (List String)
  | [] => .ok []
  | (k, v) :: kvs => do
      let s ← dumps lvl v
      let rest ← dumpsObj lvl kvs
      .ok ((jsonQuote k ++ ": " ++ s) :: rest)
end

/-- The `'='*80` banner line. -/
def eq80 : String := String.mk (List.replicate 80 '=')

/-! ## The Inspector (`inspect_dataset`, `inspect_datasets.py`)

A run of a piece of the script is modelled as `Out`: the list of printed
strings (one per `print` call, embedded newlines kept) paired with
`some message` when a Python exception escapes at that point. -/

abbrev Out := List String × Option String

/-- Sequence two script fragments: if the first raised, the second never
runs; otherwise outputs concatenate and the second's exception (if any)
propagates. -/
def seqOut (a : Out) (b : Unit → Out) : Out :=
  match a.2 with
  | some _ => a
  | none => let r := b (); (a.1 ++ r.1, r.2)

/-- `len(item.get('conversation', []))` for one record (line 33): a record
lacking the field contributes the length of the default `[]`, i.e. `0`;
a non-dict record raises `AttributeError`, an unsized field value raises
`TypeError`. -/
def convLen (item : Value) : Except String Nat :=
  match item with
  | .obj kvs =>
      match pyLen ((lookupKey kvs "conversation").getD (.arr [])) with
      | some n => .ok n
      | none => .error "TypeError: object has no len()"
  | _ => .error "AttributeError: object has no attribute get"

/-- The list comprehension of line 33 over the whole dataset. -/
def convLengths (data : List Value) : Except String (List Nat) :=
  data.mapM convLen

/-- Lines 32-37: conversation turn statistics (run only when the first
record has a `conversation` key). The lengths are computed before the
header prints; `min`/`max` on an empty lengths list would raise after it. -/
def convStatsSec (data : List Value) : Out :=
  match convLengths data with
  | .error e => ([], some e)
  | .ok [] => (["\nConversation turn statistics:"],
               some "ValueError: min() arg is an empty sequence")
  | .ok (l :: ls) =>
      let mn := ls.foldl min l
      let mx := ls.foldl max l
      let avg := format1f (l :: ls).sum (l :: ls).length
      (["\nConversation turn statistics:",
        "  Min turns: " ++ toString mn,
        "  Max turns: " ++ toString mx,
        "  Avg turns: " ++ avg], none)

/-- `item.get('language')` filtered by truthiness, for one record (line 41). -/
def getLang (item : Value) : Except String (Option Value) :=
  match item with
  | .obj kvs =>
      let v := (lookupKey kvs "language").getD .null
      .ok (if truthy v then some v else none)
  | _ => .error "AttributeError: object has no attribute get"

/-- The list comprehension of line 41 over the whole dataset. -/
def collectLangs (data : List Value) : Except String (List Value) :=
  (data.mapM getLang).map (fun l => l.filterMap id)

/-- Add one occurrence of `v` to a `Counter` kept as an association list in
first-encounter order. -/
def bump : List (Value × Nat) → Value → List (Value × Nat)
  | [], v => [(v, 1)]
  | (w, c) :: rest, v =>
      if w == v then (w, c + 1) :: rest else (w, c) :: bump rest v

/-- `Counter(languages)`: counts per distinct value, keys in first-encounter
order (CPython dict insertion order). -/
def countOcc (xs : List Value) : List (Value × Nat) :=
  xs.foldl bump []

/-- Insert into a list sorted by strictly descending count, after every
entry with a count `≥` the new one (the new entry is original-earlier than
the tail, so this is the stable descending order of `sorted(..., reverse=True)`). -/
def insertByCount (x : Value × Nat) : List (Value × Nat) → List (Value × Nat)
  | [] => [x]
  | y :: ys => if y.2 ≤ x.2 then x :: y :: ys else y :: insertByCount x ys

/-- Stable sort by descending count (`Counter.most_common` order: counts
descending, ties in first-encounter order). -/
def sortByCountDesc (xs : List (Value × Nat)) : List (Value × Nat) :=
  xs.foldr insertByCount []

/-- Lines 40-45: top-5 language frequency table (run only when the first
record has a `language` key). The percentage denominator is `len(data)`. -/
def langSec (data : List Value) : Out :=
  match collectLangs data with
  | .error e => ([], some e)
  | .ok langs =>
      let top := (sortByCountDesc (countOcc langs)).take 5
      ("\nTop 5 languages:" ::
        top.map (fun lc =>
          "  " ++ pyStr lc.1 ++ ": " ++ formatComma lc.2 ++
            " (" ++ format1f (100 * lc.2) data.length ++ "%)"), none)

/-- Lines 51-54: render one conversation turn.
`turn.get('role', turn.get('speaker_role', 'unknown'))` — the stored value is
used whenever the key is present, even if it is `None` or `""`; content is
resolved the same way from `content`/`utterance`/`''` and then sliced `[:100]`
(raising `TypeError` when the stored value is unsliceable, e.g. `None`). -/
def renderTurn (turn : Value) : Except String String :=
  match turn with
  | .obj t =>
      let role := (lookupKey t "role").getD ((lookupKey t "speaker_role").getD (.str "unknown"))
      match pySlice ((lookupKey t "content").getD ((lookupKey t "utterance").getD (.str ""))) 100 with
      | .ok c => .ok ("  [" ++ pyStr role ++ "]: " ++ pyStr c ++ "...")
      | .error e => .error e
  | _ => .error "AttributeError: object has no attribute get"

/-- Lines 57-60: render one message (`role` default `'unknown'`, `content`
default `''`, sliced `[:100]`). -/
def renderMsg (msg : Value) : Except String String :=
  match msg with
  | .obj t =>
      let role := (lookupKey t "role").getD (.str "unknown")
      match pySlice ((lookupKey t "content").getD (.str "")) 100 with
      | .ok c => .ok ("  [" ++ pyStr role ++ "]: " ++ pyStr c ++ "...")
      | .error e => .error e
  | _ => .error "AttributeError: object has no attribute get"

/-- A `for` loop printing one line per element; an exception stops the loop,
keeping the lines already printed. -/
def renderLoop (f : Value → Except String String) : List Value → Out
  | [] => ([], none)
  | t :: ts =>
      match f t with
      | .error e => ([], some e)
      | .ok l => let r := renderLoop f ts; (l :: r.1, r.2)

/-- Iterating a sliced value: a list yields its elements, a string yields its
characters as one-character strings (Python `for turn in conv`); anything else
is not iterable here because slicing already raised. -/
def iterElems : Value → List Value
  | .arr xs => xs
  | .str s => s.toList.map (fun ch => Value.str (String.mk [ch]))
  | _ => []

/-- Lines 47-64: the example preview, a strict priority chain on the first
record's keys: `conversation` (first 3 turns) / `messages` (first 2) /
`chosen` (150-char prefix) / generic `json.dumps` preview (300 chars). -/
def exampleSec (fi : List (String × Value)) : Out :=
  let hdr := "\n📝 Example conversation:"
  if hasKey fi "conversation" then
    match pySlice ((lookupKey fi "conversation").getD .null) 3 with
    | .error e => ([hdr], some e)
    | .ok conv => let r := renderLoop renderTurn (iterElems conv); (hdr :: r.1, r.2)
  else if hasKey fi "messages" then
    match pySlice ((lookupKey fi "messages").getD .null) 2 with
    | .error e => ([hdr], some e)
    | .ok msgs => let r := renderLoop renderMsg (iterElems msgs); (hdr :: r.1, r.2)
  else if hasKey fi "chosen" then
    match pySlice ((lookupKey fi "chosen").getD .null) 150 with
    | .error e => ([hdr], some e)
    | .ok ch => ([hdr, "  [chosen]: " ++ pyStr ch ++ "..."], none)
  else
    match dumps 0 (.obj fi) with
    | .error e => ([hdr], some e)
    | .ok s => ([hdr, "  Structure: " ++ s.take 300 ++ "..."], none)

/-- `inspect_dataset` from `inspect_datasets.py` lines 12-64. `loaded` is the
result of `json.load` on the file (`.error` when the file is missing or
malformed); the banner prints before the load, so those lines survive a load
failure. -/
def inspect_dataset (name : String) (loaded : Except String (List Value)) : Out :=
  let hdr := ["\n" ++ eq80, "📊 " ++ name, eq80]
  match loaded with
  | .error e => (hdr, some e)
  | .ok data =>
      let totalLine := "Total items: " ++ formatComma data.length
      match data with
      | [] => (hdr ++ [totalLine, "Empty dataset!"], none)
      | first :: _ =>
          match first with
          | .obj fi =>
              let fieldsLine := "\nFields: " ++ pyReprKeys (fi.map Prod.fst)
              seqOut (hdr ++ [totalLine, fieldsLine], none) (fun _ =>
                seqOut (if hasKey fi "conversation" then convStatsSec data else ([], none)) (fun _ =>
                  seqOut (if hasKey fi "language" then langSec data else ([], none)) (fun _ =>
                    exampleSec fi)))
          | _ => (hdr ++ [totalLine], some "AttributeError: object has no attribute keys")

/-- One dataset's contribution to the batch output (lines 74-78): the lines
`inspect_dataset` printed, followed — when it raised — by the `except`
branch's error line naming the file and the exception's message. -/
def datasetBlock (nf : String × Except String (List Value)) : List String :=
  (inspect_dataset nf.1 nf.2).1 ++
    (match (inspect_dataset nf.1 nf.2).2 with
     | some e => ["\n❌ Error inspecting " ++ nf.1 ++ ": " ++ e]
     | none => [])

/-- Lines 69-82: the batch loop over all dataset files. Each file's
`inspect_dataset` runs under `try/except`; an exception becomes one error
line naming the file, and the loop continues; the closing summary always
prints. -/
def runBatch (files : List (String × Except String (List Value))) : List String :=
  [eq80, "🔍 AI CONVERSATION DATASETS INSPECTION", eq80,
   "\nFound " ++ toString files.length ++ " datasets"]
  ++ files.flatMap datasetBlock
  ++ ["\n" ++ eq80, "✅ Inspection complete!", eq80]

/-- The number of characters after the last `.` of a rendered number (how
many decimal places a numeric rendering shows). -/
def decimalsShown (s : String) : Nat :=
  (s.toList.reverse.takeWhile (fun c => c != '.')).length

/-- A record whose `conversation` field has `k` turns. -/
def c1Rec (k : Nat) : Value :=
  .obj [("conversation",
         .arr (List.replicate k (.obj [("role", .str "user"), ("content", .str "hi")])))]

/-- The spec's conversation-length test dataset: lengths `[2, 5, 3]`. -/
def c1Data : List Value := [c1Rec 2, c1Rec 5, c1Rec 3]

/-- A record carrying only a `language` field. -/
def langRec (l : String) : Value := .obj [("language", .str l)]

/-- The spec's language-frequency test dataset: 100 records, 60 English,
30 Spanish, 10 French. -/
def data100 : List Value :=
  List.replicate 60 (langRec "English") ++ List.replicate 30 (langRec "Spanish")
    ++ List.replicate 10 (langRec "French")

/-- The count stored for key `k` in a `Counter` association list
(`0` when the key is absent) — used to reason about `countOcc`. -/
def keyCount (acc : List (Value × Nat)) (k : Value) : Nat :=
  match acc.find? (fun q => q.1 == k) with
  | some q => q.2
  | none => 0

/-! ## Theorems -/

theorem serializeList_eq_map (xs : List Value) :
    serializeList xs = xs.map serialize_item := by
  induction xs with
  | nil => rfl
  | cons x xs ih => simp [serializeList, ih]

theorem serializeObj_eq_map (kvs : List (String × Value)) :
    serializeObj kvs = kvs.map (fun kv => (kv.1, serialize_item kv.2)) := by
  induction kvs with
  | nil => rfl
  | cons kv kvs ih => simp [serializeObj, ih]

mutual
theorem serialize_item_idem : (v : Value) → serialize_item (serialize_item v) = serialize_item v
  | .timestamp _ => rfl
  | .str _ => rfl
  | .num _ => rfl
  | .bool _ => rfl
  | .null => rfl
  | .obj kvs => by simp [serialize_item, serializeObj_idem kvs]
  | .arr xs => by simp [serialize_item, serializeList_idem xs]

theorem serializeObj_idem : (kvs : List (String × Value)) →
    serializeObj (serializeObj kvs) = serializeObj kvs
  | [] => rfl
  | (k, v) :: kvs => by
      simp [serializeObj, serialize_item_idem v, serializeObj_idem kvs]

theorem serializeList_idem : (xs : List Value) →
    serializeList (serializeList xs) = serializeList xs
  | [] => rfl
  | x :: xs => by
      simp [serializeList, serialize_item_idem x, serializeList_idem xs]
end

mutual
theorem isNative_serialize : (v : Value) → isNative (serialize_item v) = true
  | .timestamp _ => rfl
  | .str _ => rfl
  | .num _ => rfl
  | .bool _ => rfl
  | .null => rfl
  | .obj kvs => by simp [serialize_item, isNative, isNativeObj_serialize kvs]
  | .arr xs => by simp [serialize_item, isNative, isNativeList_serialize xs]

theorem isNativeObj_serialize : (kvs : List (String × Value)) →
    isNativeObj (serializeObj kvs) = true
  | [] => rfl
  | (k, v) :: kvs => by
      simp [serializeObj, isNativeObj, isNative_serialize v, isNativeObj_serialize kvs]

theorem isNativeList_serialize : (xs : List Value) →
    isNativeList (serializeList xs) = true
  | [] => rfl
  | x :: xs => by
      simp [serializeList, isNativeList, isNative_serialize x, isNativeList_serialize xs]
end

/-- C2: on a sequence (a Python `list`, which is neither a mapping nor a
string), `serialize_item` returns a new sequence whose elements are the
recursively normalized elements of the input, in the same order: the result
is `Value.arr` of the elementwise image, it has the same length, and the
element at every position `i` is the normalization of the input element at
position `i`. -/
theorem serialize_item_on_sequences (xs : List Value) :
    serialize_item (Value.arr xs) = Value.arr (xs.map serialize_item) ∧
    (serializeList xs).length = xs.length ∧
    ∀ i : Nat, (serializeList xs)[i]? = xs[i]?.map serialize_item := by
  refine ⟨by simp [serialize_item, serializeList_eq_map], ?_, ?_⟩
  · simp [serializeList_eq_map]
  · intro i
    simp [serializeList_eq_map]

/-- C5: normalization is idempotent: for every value built from mappings,
lists, JSON-native scalars and timestamps (arbitrarily nested),
`serialize_item (serialize_item x) = serialize_item x`. -/
theorem serialize_item_idempotent (x : Value) :
    serialize_item (serialize_item x) = serialize_item x :=
  serialize_item_idem x

/-- C6: normalization is total (a Lean function) and its output contains
only JSON-native types — no `datetime` survives anywhere in the result, at
any nesting depth (in particular at every depth `≤ 10`). -/
theorem serialize_item_total_native (v : Value) :
    isNative (serialize_item v) = true :=
  isNative_serialize v

set_option maxRecDepth 200000

/-- C8: on an empty dataset the Inspector prints the banner, a count of 0 and
the emptiness notice, then returns: no field listing, no statistics, no
language table, no example preview, and no exception — in particular the
`min`/`max` over the empty lengths list is never reached. -/
theorem inspect_dataset_empty (name : String) :
    inspect_dataset name (.ok []) =
      (["\n" ++ eq80, "📊 " ++ name, eq80, "Total items: 0", "Empty dataset!"], none) := rfl

theorem renderTurn_dots (t : Value) (l : String) (h : renderTurn t = .ok l) :
    ∃ u, l = u ++ "..." := by
  cases t with
  | obj kvs =>
      simp only [renderTurn] at h
      split at h
      · simp at h
        exact ⟨_, h.symm⟩
      · simp at h
  | str s => simp [renderTurn] at h
  | num n => simp [renderTurn] at h
  | bool b => simp [renderTurn] at h
  | null => simp [renderTurn] at h
  | timestamp s => simp [renderTurn] at h
  | arr xs => simp [renderTurn] at h

theorem renderMsg_dots (t : Value) (l : String) (h : renderMsg t = .ok l) :
    ∃ u, l = u ++ "..." := by
  cases t with
  | obj kvs =>
      simp only [renderMsg] at h
      split at h
      · simp at h
        exact ⟨_, h.symm⟩
      · simp at h
  | str s => simp [renderMsg] at h
  | num n => simp [renderMsg] at h
  | bool b => simp [renderMsg] at h
  | null => simp [renderMsg] at h
  | timestamp s => simp [renderMsg] at h
  | arr xs => simp [renderMsg] at h

theorem renderLoop_dots (f : Value → Except String String)
    (hf : ∀ t l, f t = .ok l → ∃ u, l = u ++ "...") :
    ∀ ts, ∀ l ∈ (renderLoop f ts).1, ∃ u, l = u ++ "..." := by
  intro ts
  induction ts with
  | nil => intro l hl; simp [renderLoop] at hl
  | cons t ts ih =>
      intro l hl
      unfold renderLoop at hl
      rcases hft : f t with e | s <;> rw [hft] at hl <;> simp at hl
      rcases hl with hl | hl
      · exact hf t l (by rw [hft, hl])
      · exact ih l hl

/-- C10: every rendered preview line — conversation turn, message, chosen
value, or generic structural preview (all the lines following the
`📝 Example conversation:` header) — ends with the literal suffix `"..."`
unconditionally, so the output does not distinguish truncated from complete
content. -/
theorem preview_lines_end_with_dots (fi : List (String × Value)) :
    ∀ l ∈ (exampleSec fi).1.tail, ∃ u, l = u ++ "..." := by
  intro l hl
  unfold exampleSec at hl
  split at hl
  · -- conversation branch
    split at hl
    · simp at hl
    · simp only [List.tail_cons] at hl
      exact renderLoop_dots renderTurn renderTurn_dots _ l hl
  · split at hl
    · -- messages branch
      split at hl
      · simp at hl
      · simp only [List.tail_cons] at hl
        exact renderLoop_dots renderMsg renderMsg_dots _ l hl
    · split at hl
      · -- chosen branch
        split at hl
        · simp at hl
        · simp at hl
          exact ⟨_, hl⟩
      · -- generic structural preview
        split at hl
        · simp at hl
        · simp at hl
          exact ⟨_, hl⟩

/-- Witness for C10: a `chosen` value of length 5, far below the
150-character limit, still gets the `"..."` suffix. -/
theorem preview_lines_end_with_dots_witness :
    ∃ u, "  [chosen]: short..." = u ++ "..." := by
  have hm : "  [chosen]: short..." ∈ (exampleSec [("chosen", Value.str "short")]).1.tail := by
    show "  [chosen]: short..." ∈ ["  [chosen]: short..."]
    exact List.mem_singleton.mpr rfl
  exact preview_lines_end_with_dots [("chosen", Value.str "short")] _ hm

/-- C9: in the conversation preview, the `role` → `speaker_role` →
`"unknown"` fallback (and `content` → `utterance` → `""`) is applied only
when the earlier key is absent from the turn mapping. A present `role` key
is rendered with its stored value — even `None` or the empty string — and
a present `content` key is used even when `speaker_role`/`utterance` are
also present; a present-but-`None` content is sliced, which raises
`TypeError` rather than falling back. -/
theorem turn_fallback_only_when_absent (t : List (String × Value)) :
    (∀ v c, lookupKey t "role" = some v → lookupKey t "content" = some (Value.str c) →
        renderTurn (.obj t) = .ok ("  [" ++ pyStr v ++ "]: " ++ c.take 100 ++ "...")) ∧
    (∀ w c, lookupKey t "role" = none → lookupKey t "speaker_role" = some w →
        lookupKey t "content" = some (Value.str c) →
        renderTurn (.obj t) = .ok ("  [" ++ pyStr w ++ "]: " ++ c.take 100 ++ "...")) ∧
    (∀ c, lookupKey t "role" = none → lookupKey t "speaker_role" = none →
        lookupKey t "content" = some (Value.str c) →
        renderTurn (.obj t) = .ok ("  [unknown]: " ++ c.take 100 ++ "...")) ∧
    (∀ v u, lookupKey t "role" = some v → lookupKey t "content" = none →
        lookupKey t "utterance" = some (Value.str u) →
        renderTurn (.obj t) = .ok ("  [" ++ pyStr v ++ "]: " ++ u.take 100 ++ "...")) ∧
    (∀ v, lookupKey t "role" = some v → lookupKey t "content" = none →
        lookupKey t "utterance" = none →
        renderTurn (.obj t) = .ok ("  [" ++ pyStr v ++ "]: " ++ "...")) ∧
    (∀ v, lookupKey t "role" = some v → lookupKey t "content" = some Value.null →
        renderTurn (.obj t) = .error "TypeError: value is not subscriptable") := by
  refine ⟨?_, ?_, ?_, ?_, ?_, ?_⟩
  · intro v c h1 h2
    simp [renderTurn, h1, h2, pySlice, pyStr]
  · intro w c h1 h2 h3
    simp [renderTurn, h1, h2, h3, pySlice, pyStr]
  · intro c h1 h2 h3
    simp [renderTurn, h1, h2, h3, pySlice, pyStr]
  · intro v u h1 h2 h3
    simp [renderTurn, h1, h2, h3, pySlice, pyStr]
  · intro v h1 h2 h3
    simp [renderTurn, h1, h2, h3, pySlice, String.append_empty,
          show pyStr (Value.str ("".take 100)) = "" from rfl]
  · intro v h1 h2
    simp [renderTurn, h1, h2, pySlice]

/-- Witness for C9: a turn whose `role` key is present but `None` renders
`[None]`, and one whose `role` is the empty string renders `[]` — in both
cases the present `speaker_role` fallback is ignored. -/
theorem turn_fallback_witness :
    renderTurn (.obj [("role", Value.null), ("speaker_role", Value.str "sys"),
        ("content", Value.str "hi")]) = .ok "  [None]: hi..." ∧
    renderTurn (.obj [("role", Value.str ""), ("speaker_role", Value.str "sys"),
        ("content", Value.str "hi")]) = .ok "  []: hi..." := by
  constructor
  · have h := (turn_fallback_only_when_absent
        [("role", Value.null), ("speaker_role", Value.str "sys"),
         ("content", Value.str "hi")]).1 Value.null "hi" rfl rfl
    exact h.trans (by rfl)
  · have h := (turn_fallback_only_when_absent
        [("role", Value.str ""), ("speaker_role", Value.str "sys"),
         ("content", Value.str "hi")]).1 (Value.str "") "hi" rfl rfl
    exact h.trans (by rfl)

theorem hasKey_of_lookup (kvs : List (String × Value)) (k : String) (v : Value)
    (h : lookupKey kvs k = some v) : hasKey kvs k = true := by
  induction kvs with
  | nil => simp [lookupKey] at h
  | cons kv rest ih =>
      by_cases hk : (kv.1 == k) = true
      · simp [hasKey, List.any_cons, hk]
      · have hk' : (kv.1 == k) = false := by simpa using hk
        unfold lookupKey at h
        simp only [List.find?_cons, hk'] at h
        have hr : hasKey rest k = true := ih h
        simp [hasKey, List.any_cons, hk'] at hr ⊢
        exact hr

/-- C4: the example preview follows a strict priority chain on the first
record's keys. With a `conversation` list present, its first 3 elements are
rendered one turn per line; with no `conversation` but a `messages` list,
its first 2 elements are rendered; with neither but a string `chosen`, its
150-character prefix is rendered as one labeled line; with none of the
three, the record's `json.dumps(..., indent=2)` serialization truncated to
300 characters is rendered. Turn/message content is truncated to 100
characters. -/
theorem example_preview_priority (fi : List (String × Value)) :
    (∀ turns, lookupKey fi "conversation" = some (Value.arr turns) →
        exampleSec fi = ("\n📝 Example conversation:" :: (renderLoop renderTurn (turns.take 3)).1,
          (renderLoop renderTurn (turns.take 3)).2)) ∧
    (hasKey fi "conversation" = false → ∀ msgs, lookupKey fi "messages" = some (Value.arr msgs) →
        exampleSec fi = ("\n📝 Example conversation:" :: (renderLoop renderMsg (msgs.take 2)).1,
          (renderLoop renderMsg (msgs.take 2)).2)) ∧
    (hasKey fi "conversation" = false → hasKey fi "messages" = false →
        ∀ s, lookupKey fi "chosen" = some (Value.str s) →
        exampleSec fi = (["\n📝 Example conversation:", "  [chosen]: " ++ s.take 150 ++ "..."], none)) ∧
    (hasKey fi "conversation" = false → hasKey fi "messages" = false → hasKey fi "chosen" = false →
        ∀ s, dumps 0 (Value.obj fi) = .ok s →
        exampleSec fi = (["\n📝 Example conversation:", "  Structure: " ++ s.take 300 ++ "..."], none)) ∧
    (∀ t v c, lookupKey t "role" = some v → lookupKey t "content" = some (Value.str c) →
        renderTurn (.obj t) = .ok ("  [" ++ pyStr v ++ "]: " ++ c.take 100 ++ "...")) ∧
    (∀ t v c, lookupKey t "role" = some v → lookupKey t "content" = some (Value.str c) →
        renderMsg (.obj t) = .ok ("  [" ++ pyStr v ++ "]: " ++ c.take 100 ++ "...")) := by
  refine ⟨?_, ?_, ?_, ?_, ?_, ?_⟩
  · intro turns h
    simp [exampleSec, hasKey_of_lookup fi "conversation" _ h, h, pySlice, iterElems]
  · intro h1 msgs h
    simp [exampleSec, h1, hasKey_of_lookup fi "messages" _ h, h, pySlice, iterElems]
  · intro h1 h2 s h
    simp [exampleSec, h1, h2, hasKey_of_lookup fi "chosen" _ h, h, pySlice, pyStr]
  · intro h1 h2 h3 s h
    simp [exampleSec, h1, h2, h3, h]
  · intro t v c h1 h2
    simp [renderTurn, h1, h2, pySlice, pyStr]
  · intro t v c h1 h2
    simp [renderMsg, h1, h2, pySlice, pyStr]

/-- Witness for C4: a record with only a 160-character `chosen` field renders
exactly the 150-character truncated prefix (the spec's own preview-fallback
test case). -/
theorem example_preview_priority_witness :
    exampleSec [("chosen", Value.str (String.mk (List.replicate 160 'a')))] =
      (["\n📝 Example conversation:",
        "  [chosen]: " ++ String.mk (List.replicate 150 'a') ++ "..."], none) := by
  have h := (example_preview_priority
      [("chosen", Value.str (String.mk (List.replicate 160 'a')))]).2.2.1
      rfl rfl (String.mk (List.replicate 160 'a')) rfl
  exact h.trans (by rfl)

/-- C7: a failure while inspecting one dataset is caught at that dataset's
granularity: its block ends with a printed error line carrying the
exception's message, the blocks of all remaining datasets are produced
unchanged, and the batch always ends with the final summary banner — for
any list of datasets, failing or not. -/
theorem batch_error_isolation (pre post : List (String × Except String (List Value)))
    (name : String) (bad : Except String (List Value)) (msg : String)
    (hfail : (inspect_dataset name bad).2 = some msg) :
    runBatch (pre ++ (name, bad) :: post) =
      [eq80, "🔍 AI CONVERSATION DATASETS INSPECTION", eq80,
       "\nFound " ++ toString (pre.length + 1 + post.length) ++ " datasets"]
      ++ pre.flatMap datasetBlock
      ++ ((inspect_dataset name bad).1
          ++ ["\n❌ Error inspecting " ++ name ++ ": " ++ msg])
      ++ post.flatMap datasetBlock
      ++ ["\n" ++ eq80, "✅ Inspection complete!", eq80] ∧
    ∀ files : List (String × Except String (List Value)),
      ∃ body, runBatch files =
        [eq80, "🔍 AI CONVERSATION DATASETS INSPECTION", eq80,
         "\nFound " ++ toString files.length ++ " datasets"]
        ++ body
        ++ ["\n" ++ eq80, "✅ Inspection complete!", eq80] := by
  constructor
  · have hlen : (pre ++ (name, bad) :: post).length = pre.length + 1 + post.length := by
      simp
      omega
    have hblock : datasetBlock (name, bad) =
        (inspect_dataset name bad).1
          ++ ["\n❌ Error inspecting " ++ name ++ ": " ++ msg] := by
      simp [datasetBlock, hfail]
    simp [runBatch, hlen, hblock, List.flatMap_append, List.flatMap_cons, List.append_assoc]
  · intro files
    exact ⟨files.flatMap datasetBlock, by simp [runBatch]⟩

/-- Witness for C7: a two-dataset batch whose first file fails to load still
inspects the second dataset and prints the closing summary. -/
theorem batch_error_isolation_witness :
    runBatch [("a.json", .error "boom"), ("e.json", .ok [])] =
      [eq80, "🔍 AI CONVERSATION DATASETS INSPECTION", eq80, "\nFound 2 datasets",
       "\n" ++ eq80, "📊 a.json", eq80,
       "\n❌ Error inspecting a.json: boom",
       "\n" ++ eq80, "📊 e.json", eq80, "Total items: 0", "Empty dataset!",
       "\n" ++ eq80, "✅ Inspection complete!", eq80] := by
  have h := (batch_error_isolation [] [("e.json", .ok [])] "a.json" (.error "boom")
      "boom" rfl).1
  exact h.trans (by rfl)

theorem seqOut_none (a : List String) (b : Unit → Out) :
    seqOut (a, none) b = (a ++ (b ()).1, (b ()).2) := rfl

theorem lookupKey_none (kvs : List (String × Value)) (k : String)
    (h : hasKey kvs k = false) : lookupKey kvs k = none := by
  unfold hasKey at h
  unfold lookupKey
  rw [List.find?_eq_none.mpr]
  · rfl
  · intro x hx hpx
    rw [List.any_eq_false] at h
    exact absurd hpx (by simpa using h x hx)

theorem mapM_ok_forall2 {α β : Type} (f : α → Except String β) :
    ∀ (xs : List α) (ys : List β), xs.mapM f = .ok ys →
      List.Forall₂ (fun a b => f a = .ok b) xs ys := by
  intro xs
  induction xs with
  | nil =>
      intro ys h
      simp only [List.mapM_nil] at h
      cases h
      exact List.Forall₂.nil
  | cons x xs ih =>
      intro ys h
      rw [List.mapM_cons] at h
      rcases hfx : f x with e | y <;> rw [hfx] at h
      · simp [Bind.bind, Except.bind] at h
      · rcases hrest : xs.mapM f with e | ys' <;> rw [hrest] at h <;>
          simp [Bind.bind, Except.bind, Pure.pure, Except.pure] at h
        cases h
        exact List.Forall₂.cons hfx (ih ys' hrest)

theorem decimalsShown_one (a : String) (d : String)
    (hd : ∃ c, d.data = [c] ∧ (c != '.') = true) :
    decimalsShown (a ++ "." ++ d) = 1 := by
  obtain ⟨c, hc, hcd⟩ := hd
  unfold decimalsShown
  show ((a ++ "." ++ d).data.reverse.takeWhile (fun c => c != '.')).length = 1
  have : (a ++ "." ++ d).data = a.data ++ ['.'] ++ d.data := by
    simp [String.data_append]
  rw [this, hc]
  simp [List.takeWhile, hcd]

theorem toString_digit_single (m : Nat) (hm : m < 10) :
    ∃ c, (toString m).data = [c] ∧ (c != '.') = true := by
  interval_cases m <;> exact ⟨_, rfl, rfl⟩

/-- C1 (amended): when the first record of a non-empty dataset has a
`conversation` field, the Inspector computes, over every record, the length
of its `conversation` field (a record lacking the field contributes 0) and
reports the minimum, the maximum, and the arithmetic mean of these lengths —
the mean rendered to exactly ONE decimal place (Python `%.1f`), not to at
least two. -/
theorem conv_stats_reported (name : String) (data : List Value)
    (fi : List (String × Value)) (rest : List Value) (lens : List Nat) (mn mx : Nat)
    (hdata : data = Value.obj fi :: rest)
    (hconv : hasKey fi "conversation" = true)
    (hlens : convLengths data = .ok lens)
    (hmn : lens.min? = some mn) (hmx : lens.max? = some mx) :
    (∃ pre post, (inspect_dataset name (.ok data)).1 =
        pre ++ ["\nConversation turn statistics:",
                "  Min turns: " ++ toString mn,
                "  Max turns: " ++ toString mx,
                "  Avg turns: " ++ format1f lens.sum lens.length] ++ post) ∧
    List.Forall₂ (fun item n => convLen item = .ok n) data lens ∧
    (∀ g : List (String × Value), hasKey g "conversation" = false →
        convLen (Value.obj g) = .ok 0) ∧
    mn ∈ lens ∧ (∀ b ∈ lens, mn ≤ b) ∧ mx ∈ lens ∧ (∀ b ∈ lens, b ≤ mx) ∧
    decimalsShown (format1f lens.sum lens.length) = 1 := by
  subst hdata
  have hf2 := mapM_ok_forall2 convLen _ _ hlens
  rcases lens with _ | ⟨l0, ls⟩
  · cases hf2
  have hmn' : ls.foldl min l0 = mn := Option.some.inj hmn
  have hmx' : ls.foldl max l0 = mx := Option.some.inj hmx
  have hminp := (List.min?_eq_some_iff (fun a => Nat.le_refl a)
      (fun a b => by omega) (fun a b c => by omega)).mp hmn
  have hmaxp := (List.max?_eq_some_iff (fun a => Nat.le_refl a)
      (fun a b => by omega) (fun a b c => by omega)).mp hmx
  refine ⟨?_, hf2, ?_, hminp.1, hminp.2, hmaxp.1, fun b hb => hmaxp.2 b hb, ?_⟩
  · have hsec : convStatsSec (Value.obj fi :: rest) =
        (["\nConversation turn statistics:",
          "  Min turns: " ++ toString mn,
          "  Max turns: " ++ toString mx,
          "  Avg turns: " ++ format1f (l0 :: ls).sum (l0 :: ls).length], none) := by
      rw [convStatsSec, hlens]
      dsimp only
      rw [hmn', hmx']
    have h1 : inspect_dataset name (.ok (Value.obj fi :: rest)) =
        seqOut (["\n" ++ eq80, "📊 " ++ name, eq80,
                 "Total items: " ++ formatComma (Value.obj fi :: rest).length,
                 "\nFields: " ++ pyReprKeys (fi.map Prod.fst)], none)
          (fun _ => seqOut
            (if hasKey fi "conversation" then convStatsSec (Value.obj fi :: rest)
             else ([], none))
            (fun _ => seqOut
              (if hasKey fi "language" then langSec (Value.obj fi :: rest)
               else ([], none))
              (fun _ => exampleSec fi))) := rfl
    rw [h1, hconv] at *
    simp only [if_true, hsec, seqOut_none]
    exact ⟨["\n" ++ eq80, "📊 " ++ name, eq80,
            "Total items: " ++ formatComma (Value.obj fi :: rest).length,
            "\nFields: " ++ pyReprKeys (fi.map Prod.fst)],
           (seqOut (if hasKey fi "language" then langSec (Value.obj fi :: rest)
             else ([], none)) (fun _ => exampleSec fi)).1,
           by simp⟩
  · intro g hg
    rw [convLen]
    rw [lookupKey_none g "conversation" hg]
    rfl
  · unfold format1f
    exact decimalsShown_one _ _
      (toString_digit_single _ (Nat.mod_lt _ (by omega)))

/-- C1 counterexample: for the spec's own test dataset with conversation
lengths [2, 5, 3] the reported mean line is `Avg turns: 3.3` — one decimal
place (the code formats with `:.1f`), not at least two as the claim states. -/
theorem conv_stats_decimals_counterexample :
    (inspect_dataset "sample.json" (.ok c1Data)).1[8]? = some "  Avg turns: 3.3" ∧
    decimalsShown "  Avg turns: 3.3" = 1 ∧ ¬ 2 ≤ decimalsShown "  Avg turns: 3.3" := by
  refine ⟨rfl, rfl, ?_⟩
  intro h
  have h1 : decimalsShown "  Avg turns: 3.3" = 1 := rfl
  omega

/-- Witness for C1 (amended) at the spec's test dataset (lengths [2, 5, 3]):
the Inspector prints min 2, max 5, and mean `3.3`. -/
theorem conv_stats_reported_witness :
    ∃ pre post, (inspect_dataset "sample.json" (.ok c1Data)).1 =
      pre ++ ["\nConversation turn statistics:", "  Min turns: 2", "  Max turns: 5",
              "  Avg turns: 3.3"] ++ post := by
  obtain ⟨pre, post, h⟩ := (conv_stats_reported "sample.json" c1Data _ _ [2, 5, 3] 2 5
      rfl rfl rfl rfl rfl).1
  exact ⟨pre, post, h⟩

theorem keyCount_cons (w : Value) (c : Nat) (rest : List (Value × Nat)) (k : Value) :
    keyCount ((w, c) :: rest) k = if (w == k) = true then c else keyCount rest k := by
  by_cases h : (w == k) = true
  · simp [keyCount, List.find?_cons, h]
  · have h2 : (w == k) = false := by simpa using h
    simp [keyCount, List.find?_cons, h2, h]

theorem keyCount_bump (acc : List (Value × Nat)) (v k : Value) :
    keyCount (bump acc v) k = keyCount acc k + (if (v == k) = true then 1 else 0) := by
  induction acc with
  | nil =>
      rw [show bump [] v = [(v, 1)] from rfl, keyCount_cons]
      by_cases hvk : (v == k) = true
      · simp [keyCount, hvk]
      · have h2 : (v == k) = false := by simpa using hvk
        simp [keyCount, h2]
  | cons q rest ih =>
      obtain ⟨w, c⟩ := q
      by_cases hwv : (w == v) = true
      · have hwveq : w = v := by simpa using hwv
        subst hwveq
        simp only [bump, hwv, if_true]
        rw [keyCount_cons, keyCount_cons]
        by_cases hvk : (w == k) = true
        · simp [hvk]
        · have h2 : (w == k) = false := by simpa using hvk
          simp [h2]
      · have hwv2 : (w == v) = false := by simpa using hwv
        simp only [bump, hwv2, Bool.false_eq_true, if_false]
        rw [keyCount_cons, keyCount_cons]
        by_cases hwk : (w == k) = true
        · have hwkeq : w = k := by simpa using hwk
          have hvk2 : (v == k) = false := by
            simp only [beq_eq_false_iff_ne] at hwv2 ⊢
            intro h
            exact hwv2 (by rw [hwkeq, h])
          simp [hwk, hvk2]
        · have hwk2 : (w == k) = false := by simpa using hwk
          simp [hwk2, ih]

theorem keyCount_foldl_bump (xs : List Value) :
    ∀ (acc : List (Value × Nat)) (k : Value),
      keyCount (List.foldl bump acc xs) k = keyCount acc k + xs.count k := by
  induction xs with
  | nil => intro acc k; simp
  | cons v xs ih =>
      intro acc k
      rw [List.foldl_cons, ih (bump acc v) k, keyCount_bump, List.count_cons]
      omega

theorem mem_bump_key (acc : List (Value × Nat)) (v : Value) :
    ∀ q ∈ bump acc v, (∃ p ∈ acc, q.1 = p.1) ∨ q.1 = v := by
  induction acc with
  | nil =>
      intro q hq
      simp [bump] at hq
      subst hq
      exact Or.inr rfl
  | cons p rest ih =>
      obtain ⟨w, c⟩ := p
      intro q hq
      by_cases hwv : (w == v) = true
      · simp only [bump, hwv, if_true] at hq
        rcases List.mem_cons.mp hq with h | h
        · subst h; exact Or.inl ⟨(w, c), List.mem_cons_self _ _, rfl⟩
        · exact Or.inl ⟨q, List.mem_cons_of_mem _ h, rfl⟩
      · have hwv' : (w == v) = false := by simpa using hwv
        simp only [bump, hwv', if_false] at hq
        rcases List.mem_cons.mp hq with h | h
        · subst h; exact Or.inl ⟨(w, c), List.mem_cons_self _ _, rfl⟩
        · rcases ih q h with ⟨p, hp, hqp⟩ | h1
          · exact Or.inl ⟨p, List.mem_cons_of_mem _ hp, hqp⟩
          · exact Or.inr h1

theorem bump_pairwise (acc : List (Value × Nat)) (v : Value)
    (h : acc.Pairwise (fun p q => (p.1 == q.1) = false)) :
    (bump acc v).Pairwise (fun p q => (p.1 == q.1) = false) := by
  induction acc with
  | nil => simp [bump]
  | cons p rest ih =>
      obtain ⟨w, c⟩ := p
      rw [List.pairwise_cons] at h
      by_cases hwv : (w == v) = true
      · simp only [bump, hwv, if_true]
        rw [List.pairwise_cons]
        exact ⟨h.1, h.2⟩
      · have hwv2 : (w == v) = false := by simpa using hwv
        simp only [bump, hwv2, Bool.false_eq_true, if_false]
        rw [List.pairwise_cons]
        refine ⟨?_, ih h.2⟩
        intro q hq
        rcases mem_bump_key rest v q hq with ⟨p, hp, hqp⟩ | h1
        · rw [hqp]
          exact h.1 p hp
        · rw [h1]
          exact hwv2

theorem countOcc_pairwise (xs : List Value) :
    (countOcc xs).Pairwise (fun p q => (p.1 == q.1) = false) := by
  unfold countOcc
  have h : ∀ acc : List (Value × Nat),
      acc.Pairwise (fun p q => (p.1 == q.1) = false) →
      (List.foldl bump acc xs).Pairwise (fun p q => (p.1 == q.1) = false) := by
    induction xs with
    | nil => intro acc h; simpa using h
    | cons v xs ih =>
        intro acc h
        rw [List.foldl_cons]
        exact ih (bump acc v) (bump_pairwise acc v h)
  exact h [] (by simp)

theorem keyCount_mem (acc : List (Value × Nat))
    (hd : acc.Pairwise (fun p q => (p.1 == q.1) = false)) :
    ∀ p ∈ acc, keyCount acc p.1 = p.2 := by
  induction acc with
  | nil => intro p hp; simp at hp
  | cons q rest ih =>
      obtain ⟨w, c⟩ := q
      rw [List.pairwise_cons] at hd
      intro p hp
      rcases List.mem_cons.mp hp with h | h
      · subst h
        rw [keyCount_cons]
        simp
      · rw [keyCount_cons]
        have hwp : (w == p.1) = false := hd.1 p h
        simp [hwp]
        exact ih hd.2 p h

/-- Each entry of `Counter(xs)` stores exactly the multiplicity of its key
in `xs`. -/
theorem countOcc_counts (xs : List Value) :
    ∀ p ∈ countOcc xs, p.2 = xs.count p.1 := by
  intro p hp
  have h1 := keyCount_mem (countOcc xs) (countOcc_pairwise xs) p hp
  have h2 := keyCount_foldl_bump xs [] p.1
  unfold countOcc at h1 hp
  rw [h1] at h2
  simpa [keyCount] using h2

theorem mem_insertByCount (x z : Value × Nat) (s : List (Value × Nat)) :
    z ∈ insertByCount x s ↔ z = x ∨ z ∈ s := by
  induction s with
  | nil => simp [insertByCount]
  | cons y ys ih =>
      by_cases h : y.2 ≤ x.2
      · simp [insertByCount, h]
      · simp only [insertByCount, h, if_false, List.mem_cons, ih]
        tauto

theorem insertByCount_perm (x : Value × Nat) (s : List (Value × Nat)) :
    List.Perm (insertByCount x s) (x :: s) := by
  induction s with
  | nil => exact List.Perm.refl _
  | cons y ys ih =>
      by_cases h : y.2 ≤ x.2
      · simp [insertByCount, h]
      · simp only [insertByCount, h, if_false]
        exact (ih.cons y).trans (List.Perm.swap x y ys)

theorem sortByCountDesc_perm (xs : List (Value × Nat)) :
    List.Perm (sortByCountDesc xs) xs := by
  induction xs with
  | nil => exact List.Perm.refl _
  | cons x xs ih =>
      unfold sortByCountDesc at ih ⊢
      rw [List.foldr_cons]
      exact (insertByCount_perm x _).trans (ih.cons x)

theorem insertByCount_pairwise (x : Value × Nat) (s : List (Value × Nat))
    (h : s.Pairwise (fun a b => b.2 ≤ a.2)) :
    (insertByCount x s).Pairwise (fun a b => b.2 ≤ a.2) := by
  induction s with
  | nil => simp [insertByCount]
  | cons y ys ih =>
      rw [List.pairwise_cons] at h
      by_cases hyx : y.2 ≤ x.2
      · simp only [insertByCount, hyx, if_true]
        rw [List.pairwise_cons]
        refine ⟨?_, List.pairwise_cons.mpr h⟩
        intro z hz
        rcases List.mem_cons.mp hz with h1 | h1
        · subst h1; exact hyx
        · exact Nat.le_trans (h.1 z h1) hyx
      · simp only [insertByCount, hyx, if_false]
        rw [List.pairwise_cons]
        refine ⟨?_, ih h.2⟩
        intro z hz
        rcases (mem_insertByCount x z ys).mp hz with h1 | h1
        · subst h1; omega
        · exact h.1 z h1

theorem sortByCountDesc_pairwise (xs : List (Value × Nat)) :
    (sortByCountDesc xs).Pairwise (fun a b => b.2 ≤ a.2) := by
  induction xs with
  | nil => simp [sortByCountDesc]
  | cons x xs ih =>
      unfold sortByCountDesc at ih ⊢
      rw [List.foldr_cons]
      exact insertByCount_pairwise x _ ih

theorem sublist_insertByCount (x : Value × Nat) (s : List (Value × Nat)) :
    s.Sublist (insertByCount x s) := by
  induction s with
  | nil => simp [insertByCount]
  | cons y ys ih =>
      by_cases h : y.2 ≤ x.2
      · simp only [insertByCount, h, if_true]
        exact (List.Sublist.refl (y :: ys)).cons x
      · simp only [insertByCount, h, if_false]
        exact ih.cons₂ y

theorem pair_sublist_insertByCount (x b : Value × Nat) (s : List (Value × Nat))
    (hb : b ∈ s) (hcnt : b.2 ≤ x.2) :
    [x, b].Sublist (insertByCount x s) := by
  induction s with
  | nil => simp at hb
  | cons y ys ih =>
      by_cases h : y.2 ≤ x.2
      · simp only [insertByCount, h, if_true]
        exact (List.singleton_sublist.mpr hb).cons₂ x
      · simp only [insertByCount, h, if_false]
        rcases List.mem_cons.mp hb with h1 | h1
        · subst h1; omega
        · exact (ih h1).cons y

/-- `sortByCountDesc` is stable: a pair that appears in order in the input
with the later count `≤` the earlier stays in that order in the output (for
equal counts this is exactly Python's stable tie-breaking). -/
theorem sortByCountDesc_stable (xs : List (Value × Nat)) (a b : Value × Nat)
    (hcnt : b.2 ≤ a.2) (hsub : [a, b].Sublist xs) :
    [a, b].Sublist (sortByCountDesc xs) := by
  induction xs with
  | nil => simp at hsub
  | cons x rest ih =>
      unfold sortByCountDesc at ih ⊢
      rw [List.foldr_cons]
      cases hsub with
      | cons _ h2 =>
          exact (ih h2).trans (sublist_insertByCount x _)
      | cons₂ _ h2 =>
          have hbmem : b ∈ rest := List.singleton_sublist.mp h2
          have hbmem2 : b ∈ List.foldr insertByCount [] rest :=
            ((sortByCountDesc_perm rest).mem_iff).mpr hbmem
          exact pair_sublist_insertByCount a b _ hbmem2 hcnt

theorem seqOut_eq_of_none (a : Out) (ha : a.2 = none) (b : Unit → Out) :
    seqOut a b = (a.1 ++ (b ()).1, (b ()).2) := by
  obtain ⟨l, o⟩ := a
  cases o with
  | none => rfl
  | some e => simp at ha

/-- C3: when the first record of a non-empty dataset has a `language` field,
the Inspector collects the language value of every record where present and
truthy, counts frequencies, and reports at most 5 entries in descending
count order — ties kept in first-encounter order (stability of the sort
over the insertion-ordered counter) — each with its count and a percentage
whose denominator is the total record count `len(data)`. -/
theorem language_top5_reported (name : String) (data : List Value)
    (fi : List (String × Value)) (rest : List Value) (langs : List Value)
    (hdata : data = Value.obj fi :: rest)
    (hlang : hasKey fi "language" = true)
    (hconvok : (if hasKey fi "conversation" then convStatsSec data else ([], none)).2 = none)
    (hlangs : collectLangs data = .ok langs) :
    (∃ pre post, (inspect_dataset name (.ok data)).1 =
        pre ++ ("\nTop 5 languages:" ::
          ((sortByCountDesc (countOcc langs)).take 5).map (fun lc =>
            "  " ++ pyStr lc.1 ++ ": " ++ formatComma lc.2 ++
              " (" ++ format1f (100 * lc.2) data.length ++ "%)")) ++ post) ∧
    (∃ opts, data.mapM getLang = .ok opts ∧ langs = opts.filterMap id ∧
        List.Forall₂ (fun item o => getLang item = .ok o) data opts) ∧
    ((sortByCountDesc (countOcc langs)).take 5).length ≤ 5 ∧
    ((sortByCountDesc (countOcc langs)).take 5).Pairwise (fun a b => b.2 ≤ a.2) ∧
    (∀ lc ∈ (sortByCountDesc (countOcc langs)).take 5, lc.2 = langs.count lc.1) ∧
    (∀ a b : Value × Nat, b.2 ≤ a.2 → [a, b].Sublist (countOcc langs) →
        [a, b].Sublist (sortByCountDesc (countOcc langs))) := by
  subst hdata
  refine ⟨?_, ?_, List.length_take_le _ _, ?_, ?_, ?_⟩
  · have hlsec : langSec (Value.obj fi :: rest) =
        ("\nTop 5 languages:" ::
          ((sortByCountDesc (countOcc langs)).take 5).map (fun lc =>
            "  " ++ pyStr lc.1 ++ ": " ++ formatComma lc.2 ++
              " (" ++ format1f (100 * lc.2) (Value.obj fi :: rest).length ++ "%)"),
         none) := by
      unfold langSec
      rw [hlangs]
    have h1 : inspect_dataset name (.ok (Value.obj fi :: rest)) =
        seqOut (["\n" ++ eq80, "📊 " ++ name, eq80,
                 "Total items: " ++ formatComma (Value.obj fi :: rest).length,
                 "\nFields: " ++ pyReprKeys (fi.map Prod.fst)], none)
          (fun _ => seqOut
            (if hasKey fi "conversation" then convStatsSec (Value.obj fi :: rest)
             else ([], none))
            (fun _ => seqOut
              (if hasKey fi "language" then langSec (Value.obj fi :: rest)
               else ([], none))
              (fun _ => exampleSec fi))) := rfl
    rw [h1]
    simp only [seqOut_none, seqOut_eq_of_none _ hconvok, hlang, if_true, hlsec]
    refine ⟨["\n" ++ eq80, "📊 " ++ name, eq80,
             "Total items: " ++ formatComma (Value.obj fi :: rest).length,
             "\nFields: " ++ pyReprKeys (fi.map Prod.fst)] ++
            (if hasKey fi "conversation" then convStatsSec (Value.obj fi :: rest)
             else ([], none)).1,
            (exampleSec fi).1, ?_⟩
    simp [List.append_assoc]
  · unfold collectLangs at hlangs
    rcases hopt : (Value.obj fi :: rest).mapM getLang with e | opts <;> rw [hopt] at hlangs
    · exact absurd hlangs (by simp [Except.map])
    · have hfm : opts.filterMap id = langs := by
        simpa [Except.map] using hlangs
      subst hfm
      exact ⟨opts, rfl, rfl, mapM_ok_forall2 getLang _ _ hopt⟩
  · exact List.Pairwise.sublist (List.take_sublist _ _)
      (sortByCountDesc_pairwise (countOcc langs))
  · intro lc hlc
    exact countOcc_counts langs lc
      (((sortByCountDesc_perm (countOcc langs)).mem_iff).mp (List.mem_of_mem_take hlc))
  · intro a b hcnt hsub
    exact sortByCountDesc_stable (countOcc langs) a b hcnt hsub

/-- Witness for C3 at the spec's own test dataset: 100 records with
`language` English for 60, Spanish for 30, French for 10; the report lists
English 60 (60.0%), Spanish 30 (30.0%), French 10 (10.0%), in that order. -/
theorem language_top5_reported_witness :
    ∃ pre post, (inspect_dataset "langs.json" (.ok data100)).1 =
      pre ++ ["\nTop 5 languages:",
              "  English: 60 (60.0%)",
              "  Spanish: 30 (30.0%)",
              "  French: 10 (10.0%)"] ++ post := by
  obtain ⟨pre, post, h⟩ := (language_top5_reported "langs.json" data100 _ _
      (List.replicate 60 (Value.str "English") ++ List.replicate 30 (Value.str "Spanish")
        ++ List.replicate 10 (Value.str "French"))
      rfl rfl rfl rfl).1
  exact ⟨pre, post, h⟩
